import Mathlib

/-!
Verification development for the godb append-only log-backed key-value store.

Shallow embedding of the storage core (src/kv/log.go and the kv package file
containing NewKV/Set/Del/Get/Compact).  Bytes are modelled as `Nat` values
below 256 inside `List Nat`; files are byte lists; the filesystem used by
compaction is an association list from path to contents.  Machine integers
(uint32) are `Nat` with explicit `% 2 ^ 32` masking where Go truncates.
-/

namespace GoDB

/-- Big-endian 4-byte encoding of a `uint32`, as Go's
`binary.BigEndian.PutUint32(hdr, uint32(n))`: the cast truncates modulo
`2 ^ 32`, which the byte extraction below performs implicitly. -/
def be32 (n : Nat) : List Nat :=
  [n / 2 ^ 24 % 256, n / 2 ^ 16 % 256, n / 2 ^ 8 % 256, n % 256]

/-- Big-endian 4-byte decoding, as Go's `binary.BigEndian.Uint32`.  Each
byte is masked to 8 bits; on real byte streams (values < 256) the mask is
the identity. -/
def beU32 (b : List Nat) : Nat :=
  (b.getD 0 0 % 256) * 2 ^ 24 + (b.getD 1 0 % 256) * 2 ^ 16 +
    (b.getD 2 0 % 256) * 2 ^ 8 + b.getD 3 0 % 256

/-- Reflected CRC32-IEEE polynomial (Go `crc32.IEEE` table generator). -/
def crc32Poly : Nat := 0xEDB88320

/-- One bit step of the reflected CRC32 algorithm. -/
def crcBit (c : Nat) : Nat :=
  if c % 2 = 1 then (c / 2) ^^^ crc32Poly else c / 2

/-- Iterate `crcBit` `n` times (8 per input byte). -/
def crcBits : Nat → Nat → Nat
  | 0, c => c
  | n + 1, c => crcBits n (crcBit c)

/-- Fold one input byte into the CRC state (bitwise form of Go's
table-driven `crc32.Update`). -/
def crcByte (crc b : Nat) : Nat :=
  crcBits 8 (crc ^^^ b % 256)

/-- `crc32.ChecksumIEEE`: initial state `0xFFFFFFFF`, fold all bytes,
final complement (xor with `0xFFFFFFFF`). -/
def crc32 (bs : List Nat) : Nat :=
  (bs.foldl crcByte 0xFFFFFFFF) ^^^ 0xFFFFFFFF

/-- `buildSetPayload` (src/kv/log.go): tag byte 1, big-endian key length,
key bytes, big-endian value length, value bytes. -/
def buildSetPayload (key value : List Nat) : List Nat :=
  1 :: (be32 key.length ++ (key ++ (be32 value.length ++ value)))

/-- `buildDelPayload` (src/kv/log.go): tag byte 2, big-endian key length,
key bytes. -/
def buildDelPayload (key : List Nat) : List Nat :=
  2 :: (be32 key.length ++ key)

/-- The frame written for one payload: `[4 bytes length][4 bytes crc32]`
then the payload bytes (header layout of `writeLogEntry`). -/
def frameBytes (payload : List Nat) : List Nat :=
  be32 payload.length ++ (be32 (crc32 payload) ++ payload)

/-- `writeLogEntry` (src/kv/log.go): appends the frame to the file and
syncs.  `wErr` injects a failure of `Write`/`Sync`; on failure the entry's
durability is undefined and the error is returned, on success the file has
grown by exactly the frame. -/
def writeLogEntry (wErr : Option String) (file payload : List Nat) :
    Except String (List Nat) :=
  match wErr with
  | some e => Except.error e
  | none => Except.ok (file ++ frameBytes payload)

/-- Loop body of `readLog` (src/kv/log.go), with a fuel argument bounding
the number of iterations so the recursion is structural: each iteration
consumes at least 8 bytes, so `bytes.length` fuel always suffices.
Mirrors the source exactly: stop on a short header, read `size` from the
first 4 header bytes and the expected checksum from the next 4, stop on a
short payload, stop on a checksum mismatch, otherwise collect the payload
and continue. -/
def readLogAux : Nat → List Nat → List (List Nat)
  | 0, _ => []
  | fuel + 1, bytes =>
    if bytes.length < 8 then []
    else
      let size := beU32 (bytes.take 4)
      let expectedCrc := beU32 ((bytes.drop 4).take 4)
      let rest := bytes.drop 8
      if rest.length < size then []
      else
        let payload := rest.take size
        if crc32 payload ≠ expectedCrc then []
        else payload :: readLogAux fuel (rest.drop size)

/-- `readLog` (src/kv/log.go): read frames from offset 0 until end of
stream or the first truncated/corrupt frame, returning the payloads in
order.  On an in-memory byte stream the only error path of the Go code
(a non-EOF I/O error from `ReadFull`) cannot occur, so the embedding is
total and never errors. -/
def readLog (bytes : List Nat) : List (List Nat) :=
  readLogAux bytes.length bytes

/-- The in-memory table `map[string][]byte`, modelled as an association
list from key bytes to value bytes with unique keys. -/
abbrev Table := List (List Nat × List Nat)

/-- Map insert/overwrite `k.data[key] = val`: replace the binding in
place if the key is present, otherwise append it. -/
def tblInsert : Table → List Nat → List Nat → Table
  | [], k, v => [(k, v)]
  | (k', v') :: t, k, v =>
    if k' = k then (k, v) :: t else (k', v') :: tblInsert t k v

/-- Map removal `delete(k.data, key)`: drop the binding if present. -/
def tblErase : Table → List Nat → Table
  | [], _ => []
  | (k', v') :: t, k => if k' = k then t else (k', v') :: tblErase t k

/-- Map lookup `v, ok := k.data[key]`. -/
def tblGet : Table → List Nat → Option (List Nat)
  | [], _ => none
  | (k', v') :: t, k => if k' = k then some v' else tblGet t k

/-- A decoded log record: spec §3's `SetRecord`/`DeleteRecord`. -/
inductive LogRecord : Type
  | SetRecord (key value : List Nat) : LogRecord
  | DeleteRecord (key : List Nat) : LogRecord
deriving DecidableEq

/-- Payload decoding, the parsing half of the replay `switch` in `NewKV`
(tag dispatch on the first byte; every bounds check and offset is the one
the source performs, in the same order, with the same error messages).
`NewKV` interleaves these checks with the table update; the update happens
only after all checks of a branch pass, so factoring the parse out is
behavior-preserving. -/
def decodePayload (p : List Nat) : Except String LogRecord :=
  match p with
  | [] => Except.error "empty payload"
  | b :: _ =>
    if b = 1 then
      if 1 + 4 > p.length then Except.error "malformed set entry"
      else
        let klen := beU32 ((p.drop 1).take 4)
        if 1 + 4 + klen > p.length then Except.error "malformed set entry key"
        else
          let key := (p.drop 5).take klen
          if 5 + klen + 4 > p.length then
            Except.error "malformed set entry value length"
          else
            let vlen := beU32 ((p.drop (5 + klen)).take 4)
            if 5 + klen + 4 + vlen > p.length then
              Except.error "malformed set entry value"
            else Except.ok (LogRecord.SetRecord key ((p.drop (9 + klen)).take vlen))
    else if b = 2 then
      if 1 + 4 > p.length then Except.error "malformed del entry"
      else
        let klen := beU32 ((p.drop 1).take 4)
        if 1 + 4 + klen > p.length then Except.error "malformed del entry key"
        else Except.ok (LogRecord.DeleteRecord ((p.drop 5).take klen))
    else Except.error ("unknown entry type " ++ toString b)

/-- One iteration of the replay loop in `NewKV`: an empty payload is
skipped (`continue`), otherwise the payload is decoded and applied to the
table (insert for Set, delete for Del), and a decode failure aborts. -/
def applyPayload (t : Table) (p : List Nat) : Except String Table :=
  if p.length = 0 then Except.ok t
  else
    match decodePayload p with
    | Except.ok (LogRecord.SetRecord k v) => Except.ok (tblInsert t k v)
    | Except.ok (LogRecord.DeleteRecord k) => Except.ok (tblErase t k)
    | Except.error e => Except.error e

/-- The replay loop of `NewKV` over the payload list returned by
`readLog`, threading the table and stopping at the first error. -/
def replayFrom (t : Table) : List (List Nat) → Except String Table
  | [] => Except.ok t
  | p :: ps =>
    match applyPayload t p with
    | Except.ok t' => replayFrom t' ps
    | Except.error e => Except.error e

/-- The `KV` struct: the in-memory table plus the contents of the open
log file (the file handle's bytes; the path is passed separately to
`Compact`, the only operation that uses it). -/
structure KV : Type where
  data : Table
  logBytes : List Nat
deriving DecidableEq

/-- `NewKV` on the bytes of an existing (or empty, if just created) log
file: replay all well-framed payloads into a fresh table; a malformed
payload aborts initialization with its error.  The file-open and seek
error paths are I/O failures outside the byte-level model. -/
def NewKV (fileBytes : List Nat) : Except String KV :=
  match replayFrom [] (readLog fileBytes) with
  | Except.ok t => Except.ok ⟨t, fileBytes⟩
  | Except.error e => Except.error e

/-- `KV.Get`: pure lookup (the Go copy of the value has no observable
effect in a pure model). -/
def KV.Get (k : KV) (key : List Nat) : Option (List Nat) :=
  tblGet k.data key

/-- `KV.Set`: build the payload, append it durably, and only on success
update the table.  On failure the error is returned and the struct is
unchanged (the file's tail durability is undefined but the table is
untouched). -/
def KV.Set (wErr : Option String) (k : KV) (key value : List Nat) :
    Option String × KV :=
  match writeLogEntry wErr k.logBytes (buildSetPayload key value) with
  | Except.error e => (some e, k)
  | Except.ok f => (none, ⟨tblInsert k.data key value, f⟩)

/-- `KV.Del`: build the tombstone payload, append it durably, and only on
success remove the key from the table. -/
def KV.Del (wErr : Option String) (k : KV) (key : List Nat) :
    Option String × KV :=
  match writeLogEntry wErr k.logBytes (buildDelPayload key) with
  | Except.error e => (some e, k)
  | Except.ok f => (none, ⟨tblErase k.data key, f⟩)

/-- A filesystem directory: association list from path to file contents,
unique paths.  Only the operations `Compact` performs are modelled. -/
abbrev FS := List (String × List Nat)

/-- Contents of the file at `p`, if it exists. -/
def fsLookup : FS → String → Option (List Nat)
  | [], _ => none
  | (q, c) :: fs, p => if q = p then some c else fsLookup fs p

/-- Create or overwrite the file at `p` with contents `c`. -/
def fsWrite : FS → String → List Nat → FS
  | [], p, c => [(p, c)]
  | (q, d) :: fs, p, c =>
    if q = p then (p, c) :: fs else (q, d) :: fsWrite fs p c

/-- `os.Remove p`: drop the file if present. -/
def fsRemove : FS → String → FS
  | [], _ => []
  | (q, d) :: fs, p => if q = p then fs else (q, d) :: fsRemove fs p

/-- `os.Rename src dst`: move the file at `src` onto `dst`, replacing any
existing `dst` (POSIX rename).  `Compact` only renames files it has just
created, so the missing-source case is unreachable in its use. -/
def fsRename (fs : FS) (src dst : String) : FS :=
  match fsLookup fs src with
  | none => fs
  | some c => fsWrite (fsRemove fs src) dst c

/-- The failure points of `Compact`, in source order: temp-file creation,
the `writeLogEntry` of the i-th table entry, closing the temp file, the
rename of temp to the staging name, the three directory-sync substeps
(open, sync, close), closing the live log handle, the final rename onto
the live path, the second directory sync's three substeps, and the
reopen. -/
inductive CErr : Type
  | createTmp
  | writeEntry (i : Nat)
  | closeTmp
  | renameTmp
  | openDir
  | syncDir
  | closeDir
  | closeLog
  | renameFinal
  | openDir2
  | syncDir2
  | closeDir2
  | reopen
deriving DecidableEq

/-- Which entry-write fails, if an injected `writeEntry i` failure lies
inside the loop's range (`i < n`, the table size); otherwise the write
loop runs to completion. -/
def firstWriteFail : Option CErr → Nat → Option Nat
  | some (CErr.writeEntry i), n => if i < n then some i else none
  | _, _ => none

/-- The bytes the compaction write loop produces for a table: one framed
Set entry per table binding, in table iteration order. -/
def compactLog : Table → List Nat
  | [] => []
  | (k, v) :: t => frameBytes (buildSetPayload k v) ++ compactLog t

/-- `KV.Compact`, over the filesystem and the store's table and log path.
`failAt` injects at most one failure, at the named step; `none` is the
failure-free run.  The result is the returned error (if any) and the
filesystem after the run; the in-memory table is returned unchanged
because the source never writes `k.data` in `Compact`.  Faithful to the
source's cleanup exactly: a failed entry write, temp close, or
temp-to-staging rename removes the temp file; later failures perform no
removal. -/
def KV.Compact (failAt : Option CErr) (logPath : String) (data : Table)
    (fs : FS) : Option CErr × FS × Table :=
  let tmpName := logPath ++ ".compact.tmp"
  let rotatedName := logPath ++ ".compact.new"
  if failAt = some CErr.createTmp ∨ (fsLookup fs tmpName).isSome then
    (some CErr.createTmp, fs, data)
  else
    match firstWriteFail failAt data.length with
    | some i =>
      (some (CErr.writeEntry i),
        fsRemove (fsWrite fs tmpName (compactLog (data.take i))) tmpName, data)
    | none =>
      let fs1 := fsWrite fs tmpName (compactLog data)
      if failAt = some CErr.closeTmp then
        (some CErr.closeTmp, fsRemove fs1 tmpName, data)
      else if failAt = some CErr.renameTmp then
        (some CErr.renameTmp, fsRemove fs1 tmpName, data)
      else
        let fs2 := fsRename fs1 tmpName rotatedName
        if failAt = some CErr.openDir then (some CErr.openDir, fs2, data)
        else if failAt = some CErr.syncDir then (some CErr.syncDir, fs2, data)
        else if failAt = some CErr.closeDir then (some CErr.closeDir, fs2, data)
        else if failAt = some CErr.closeLog then (some CErr.closeLog, fs2, data)
        else if failAt = some CErr.renameFinal then
          (some CErr.renameFinal, fs2, data)
        else
          let fs3 := fsRename fs2 rotatedName logPath
          if failAt = some CErr.openDir2 then (some CErr.openDir2, fs3, data)
          else if failAt = some CErr.syncDir2 then
            (some CErr.syncDir2, fs3, data)
          else if failAt = some CErr.closeDir2 then
            (some CErr.closeDir2, fs3, data)
          else if failAt = some CErr.reopen then (some CErr.reopen, fs3, data)
          else (none, fs3, data)

/-! ### Helper lemmas: byte encoding and CRC bounds -/

theorem be32_length (n : Nat) : (be32 n).length = 4 := rfl

theorem beU32_be32 (n : Nat) (h : n < 2 ^ 32) : beU32 (be32 n) = n := by
  simp only [be32, beU32, List.getD_cons_zero, List.getD_cons_succ]
  omega

theorem crcBit_lt (c : Nat) (h : c < 2 ^ 32) : crcBit c < 2 ^ 32 := by
  unfold crcBit
  split
  · exact Nat.xor_lt_two_pow (by omega) (by norm_num [crc32Poly])
  · omega

theorem crcBits_lt (n c : Nat) (h : c < 2 ^ 32) : crcBits n c < 2 ^ 32 := by
  induction n generalizing c with
  | zero => exact h
  | succ m ih => exact ih _ (crcBit_lt c h)

theorem crcByte_lt (crc b : Nat) (h : crc < 2 ^ 32) : crcByte crc b < 2 ^ 32 :=
  crcBits_lt 8 _ (Nat.xor_lt_two_pow h (by have := Nat.mod_lt b (y := 256) (by omega); omega))

theorem crc32_foldl_lt (bs : List Nat) (a : Nat) (h : a < 2 ^ 32) :
    bs.foldl crcByte a < 2 ^ 32 := by
  induction bs generalizing a with
  | nil => exact h
  | cons b t ih => exact ih _ (crcByte_lt a b h)

theorem crc32_lt (bs : List Nat) : crc32 bs < 2 ^ 32 := by
  unfold crc32
  exact Nat.xor_lt_two_pow (crc32_foldl_lt bs _ (by norm_num)) (by norm_num)

theorem take4_be32_append (x : Nat) (y : List Nat) :
    (be32 x ++ y).take 4 = be32 x := by
  have h := List.take_left (be32 x) y
  rwa [be32_length] at h

theorem drop4_be32_append (x : Nat) (y : List Nat) :
    (be32 x ++ y).drop 4 = y := by
  have h := List.drop_left (be32 x) y
  rwa [be32_length] at h

/-! ### Helper lemmas: readLog -/

theorem readLogAux_congr (f1 : Nat) :
    ∀ (f2 : Nat) (bytes : List Nat), bytes.length ≤ f1 → bytes.length ≤ f2 →
      readLogAux f1 bytes = readLogAux f2 bytes := by
  induction f1 with
  | zero =>
    intro f2 bytes h1 _
    have hb : bytes = [] := List.length_eq_zero.mp (by omega)
    subst hb
    cases f2 <;> simp [readLogAux]
  | succ a ih =>
    intro f2 bytes h1 h2
    cases f2 with
    | zero =>
      have hb : bytes = [] := List.length_eq_zero.mp (by omega)
      subst hb
      simp [readLogAux]
    | succ b =>
      simp only [readLogAux]
      by_cases hlen : bytes.length < 8
      · rw [if_pos hlen, if_pos hlen]
      · rw [if_neg hlen, if_neg hlen]
        split
        · rfl
        · split
          · rfl
          · congr 1
            apply ih
            · simp only [List.length_drop]
              omega
            · simp only [List.length_drop]
              omega

theorem readLogAux_eq_readLog (fuel : Nat) (bytes : List Nat)
    (h : bytes.length ≤ fuel) : readLogAux fuel bytes = readLog bytes :=
  readLogAux_congr fuel bytes.length bytes h (Nat.le_refl _)

theorem readLog_nil : readLog [] = [] := rfl

/-- One well-formed frame at the head of the stream is consumed and its
payload collected; reading then continues on the remaining bytes. -/
theorem readLog_cons (p rest : List Nat) (hp : p.length < 2 ^ 32) :
    readLog (frameBytes p ++ rest) = p :: readLog rest := by
  have hassoc : frameBytes p ++ rest =
      be32 p.length ++ (be32 (crc32 p) ++ (p ++ rest)) := by
    simp [frameBytes, List.append_assoc]
  have hlen : (frameBytes p ++ rest).length = 8 + p.length + rest.length := by
    simp only [frameBytes, be32, List.length_append, List.length_cons,
      List.length_nil]
    omega
  rw [hassoc] at hlen ⊢
  set bytes := be32 p.length ++ (be32 (crc32 p) ++ (p ++ rest)) with hbytes
  have htake4 : bytes.take 4 = be32 p.length := take4_be32_append _ _
  have hdrop4 : bytes.drop 4 = be32 (crc32 p) ++ (p ++ rest) :=
    drop4_be32_append _ _
  have hdrop8 : bytes.drop 8 = p ++ rest := by
    have : (bytes.drop 4).drop 4 = bytes.drop 8 := by
      rw [List.drop_drop]
    rw [← this, hdrop4, drop4_be32_append]
  have hsize : beU32 (bytes.take 4) = p.length := by
    rw [htake4, beU32_be32 _ hp]
  have hcrcfield : beU32 ((bytes.drop 4).take 4) = crc32 p := by
    rw [hdrop4, take4_be32_append, beU32_be32 _ (crc32_lt p)]
  rw [readLog]
  have hlen1 : bytes.length = (7 + p.length + rest.length) + 1 := by omega
  rw [hlen1]
  simp only [readLogAux]
  have h8 : ¬ (bytes.length < 8) := by omega
  rw [if_neg h8]
  simp only [hsize, hcrcfield, hdrop8]
  have hshort : ¬ ((p ++ rest).length < p.length) := by
    simp only [List.length_append]
    omega
  rw [if_neg hshort]
  have htakep : (p ++ rest).take p.length = p := List.take_left p rest
  have hdropp : (p ++ rest).drop p.length = rest := List.drop_left p rest
  simp only [htakep, hdropp]
  rw [if_neg (by simp)]
  have : readLogAux (7 + p.length + rest.length) rest = readLog rest :=
    readLogAux_eq_readLog _ rest (by omega)
  rw [this]

/-- The crash-tail shapes that `readLog` silently tolerates: an empty
tail (clean EOF at a frame boundary), a short frame header, a declared
payload longer than the remaining bytes (short payload), or a complete
frame whose checksum does not match its payload. -/
abbrev BadTail (junk : List Nat) : Prop :=
  junk = [] ∨ junk.length < 8 ∨
    (8 ≤ junk.length ∧ junk.length - 8 < beU32 (junk.take 4)) ∨
    (8 ≤ junk.length ∧ beU32 (junk.take 4) ≤ junk.length - 8 ∧
      crc32 ((junk.drop 8).take (beU32 (junk.take 4))) ≠
        beU32 ((junk.drop 4).take 4))

theorem readLog_badTail (junk : List Nat) (h : BadTail junk) :
    readLog junk = [] := by
  rcases h with h | h | ⟨h8, hshort⟩ | ⟨h8, hfit, hcrc⟩
  · subst h
    rfl
  · rw [readLog]
    rcases hj : junk.length with _ | m
    · have : junk = [] := List.length_eq_zero.mp hj
      subst this
      rfl
    · simp only [readLogAux]
      rw [if_pos (by omega)]
  · rw [readLog]
    have hj : junk.length = (junk.length - 1) + 1 := by omega
    rw [hj]
    simp only [readLogAux]
    rw [if_neg (by omega)]
    rw [if_pos (by simp only [List.length_drop]; omega)]
  · rw [readLog]
    have hj : junk.length = (junk.length - 1) + 1 := by omega
    rw [hj]
    simp only [readLogAux]
    rw [if_neg (by omega)]
    rw [if_neg (by simp only [List.length_drop]; omega)]
    rw [if_pos hcrc]

/-- A sequence of well-formed frames followed by a tolerated bad tail
replays to exactly the payloads of the well-formed frames. -/
theorem readLog_frames_badTail (ps : List (List Nat)) (junk : List Nat)
    (hps : ∀ p ∈ ps, p.length < 2 ^ 32) (hj : BadTail junk) :
    readLog ((ps.map frameBytes).flatten ++ junk) = ps := by
  induction ps with
  | nil => simpa using readLog_badTail junk hj
  | cons p rest ih =>
    have hp : p.length < 2 ^ 32 := hps p (by simp)
    have hrest : ∀ q ∈ rest, q.length < 2 ^ 32 := fun q hq => hps q (by simp [hq])
    simp only [List.map_cons, List.flatten_cons, List.append_assoc]
    rw [readLog_cons p _ hp, ih hrest]

/-! ### Helper lemmas: payload codec -/

theorem buildSetPayload_length (key value : List Nat) :
    (buildSetPayload key value).length = 9 + key.length + value.length := by
  simp only [buildSetPayload, be32, List.length_cons, List.length_append,
    List.length_nil]
  omega

theorem buildDelPayload_length (key : List Nat) :
    (buildDelPayload key).length = 5 + key.length := by
  simp only [buildDelPayload, be32, List.length_cons, List.length_append,
    List.length_nil]
  omega

theorem decode_set (key value : List Nat) (hk : key.length < 2 ^ 32)
    (hv : value.length < 2 ^ 32) :
    decodePayload (buildSetPayload key value) =
      Except.ok (LogRecord.SetRecord key value) := by
  rw [show buildSetPayload key value =
    1 :: (be32 key.length ++ (key ++ (be32 value.length ++ value))) from rfl]
  set T := be32 key.length ++ (key ++ (be32 value.length ++ value)) with hT
  have hTlen : T.length = 8 + key.length + value.length := by
    simp only [hT, be32, List.length_append, List.length_cons, List.length_nil]
    omega
  have hd1 : (1 :: T).drop 1 = T := rfl
  have hklen : beU32 (((1 :: T).drop 1).take 4) = key.length := by
    rw [hd1, hT, take4_be32_append, beU32_be32 _ hk]
  have hd5 : (1 :: T).drop 5 = key ++ (be32 value.length ++ value) := by
    have h45 : (1 :: T).drop 5 = ((1 :: T).drop 1).drop 4 := by
      rw [List.drop_drop]
    rw [h45, hd1, hT, drop4_be32_append]
  have hdk : (1 :: T).drop (5 + key.length) = be32 value.length ++ value := by
    have h5k : (1 :: T).drop (5 + key.length) =
        ((1 :: T).drop 5).drop key.length := by
      rw [List.drop_drop]
    rw [h5k, hd5, List.drop_left]
  have hvlen : beU32 (((1 :: T).drop (5 + key.length)).take 4) = value.length := by
    rw [hdk, take4_be32_append, beU32_be32 _ hv]
  have hdv : (1 :: T).drop (9 + key.length) = value := by
    have h9k : (1 :: T).drop (9 + key.length) =
        ((1 :: T).drop (5 + key.length)).drop 4 := by
      rw [List.drop_drop]
      congr 1
      omega
    rw [h9k, hdk, drop4_be32_append]
  simp only [decodePayload]
  rw [if_pos trivial]
  rw [if_neg (by simp only [List.length_cons, hTlen]; omega)]
  rw [hklen]
  rw [if_neg (by simp only [List.length_cons, hTlen]; omega)]
  rw [if_neg (by simp only [List.length_cons, hTlen]; omega)]
  rw [hvlen]
  rw [if_neg (by simp only [List.length_cons, hTlen]; omega)]
  rw [hd5, hdv]
  rw [List.take_left, List.take_length]

theorem decode_del (key : List Nat) (hk : key.length < 2 ^ 32) :
    decodePayload (buildDelPayload key) =
      Except.ok (LogRecord.DeleteRecord key) := by
  rw [show buildDelPayload key = 2 :: (be32 key.length ++ key) from rfl]
  set T := be32 key.length ++ key with hT
  have hTlen : T.length = 4 + key.length := by
    simp only [hT, be32, List.length_append, List.length_cons, List.length_nil]
  have hd1 : (2 :: T).drop 1 = T := rfl
  have hklen : beU32 (((2 :: T).drop 1).take 4) = key.length := by
    rw [hd1, hT, take4_be32_append, beU32_be32 _ hk]
  have hd5 : (2 :: T).drop 5 = key := by
    have h45 : (2 :: T).drop 5 = ((2 :: T).drop 1).drop 4 := by
      rw [List.drop_drop]
    rw [h45, hd1, hT, drop4_be32_append]
  have hlen2 : (2 :: T).length = 5 + key.length := by
    simp only [List.length_cons, hTlen]
    omega
  simp only [decodePayload]
  rw [if_pos trivial]
  have h1 : ¬ (1 + 4 > (2 :: T).length) := by omega
  rw [if_neg h1]
  rw [hklen, hd5, List.take_length]
  have h2 : ¬ (1 + 4 + key.length > (2 :: T).length) := by omega
  rw [if_neg h2]
  rw [if_neg (show ¬ ((2 : Nat) = 1) by decide)]
  rw [if_neg h1, if_neg h2]

theorem applyPayload_set (t : Table) (key value : List Nat)
    (hk : key.length < 2 ^ 32) (hv : value.length < 2 ^ 32) :
    applyPayload t (buildSetPayload key value) =
      Except.ok (tblInsert t key value) := by
  rw [applyPayload]
  rw [if_neg (by rw [buildSetPayload_length]; omega)]
  rw [decode_set key value hk hv]

theorem applyPayload_del (t : Table) (key : List Nat)
    (hk : key.length < 2 ^ 32) :
    applyPayload t (buildDelPayload key) = Except.ok (tblErase t key) := by
  rw [applyPayload]
  rw [if_neg (by rw [buildDelPayload_length]; omega)]
  rw [decode_del key hk]

/-! ### Helper lemmas: table operations -/

theorem tblInsert_fresh (t : Table) (k v : List Nat)
    (h : tblGet t k = none) : tblInsert t k v = t ++ [(k, v)] := by
  induction t with
  | nil => rfl
  | cons e rest ih =>
    obtain ⟨k', v'⟩ := e
    by_cases hk : k' = k
    · simp only [tblGet, if_pos hk] at h
      cases h
    · simp only [tblGet, if_neg hk] at h
      simp only [tblInsert, if_neg hk, List.cons_append, ih h]

theorem tblErase_absent (t : Table) (k : List Nat)
    (h : tblGet t k = none) : tblErase t k = t := by
  induction t with
  | nil => rfl
  | cons e rest ih =>
    obtain ⟨k', v'⟩ := e
    by_cases hk : k' = k
    · simp only [tblGet, if_pos hk] at h
      cases h
    · simp only [tblGet, if_neg hk] at h
      simp only [tblErase, if_neg hk, ih h]

theorem tblGet_append_single_none (t : Table) (k k' v : List Nat)
    (h : tblGet t k' = none) (hne : k' ≠ k) :
    tblGet (t ++ [(k, v)]) k' = none := by
  induction t with
  | nil =>
    simp only [List.nil_append, tblGet]
    rw [if_neg (fun hh => hne hh.symm)]
  | cons e rest ih =>
    obtain ⟨k'', v''⟩ := e
    by_cases hk : k'' = k'
    · simp only [tblGet, if_pos hk] at h
      cases h
    · simp only [tblGet, if_neg hk] at h
      simp only [List.cons_append, tblGet, if_neg hk]
      exact ih h

/-! ### Helper lemmas: replay of a compacted log -/

theorem replayFrom_sets (data : Table) :
    ∀ t : Table, (∀ e ∈ data, tblGet t e.1 = none) →
      (data.map Prod.fst).Nodup →
      (∀ e ∈ data, e.1.length < 2 ^ 32 ∧ e.2.length < 2 ^ 32) →
      replayFrom t (data.map fun e => buildSetPayload e.1 e.2) =
        Except.ok (t ++ data) := by
  induction data with
  | nil =>
    intro t _ _ _
    simp [replayFrom]
  | cons e rest ih =>
    intro t hdisj hnodup hsz
    obtain ⟨k, v⟩ := e
    have hk : k.length < 2 ^ 32 := (hsz (k, v) (by simp)).1
    have hv : v.length < 2 ^ 32 := (hsz (k, v) (by simp)).2
    have h1 : applyPayload t (buildSetPayload k v) =
        Except.ok (tblInsert t k v) := applyPayload_set t k v hk hv
    simp only [List.map_cons, replayFrom, h1]
    rw [tblInsert_fresh t k v (hdisj (k, v) (by simp))]
    have hknotin : k ∉ rest.map Prod.fst := by
      have := hnodup
      simp only [List.map_cons, List.nodup_cons] at this
      exact this.1
    rw [ih (t ++ [(k, v)])
      (fun e he => tblGet_append_single_none t k e.1 v
        (hdisj e (by simp [he]))
        (fun hkk => hknotin (hkk ▸ List.mem_map_of_mem Prod.fst he)))
      (by simpa using hnodup.of_cons)
      (fun e he => hsz e (by simp [he]))]
    simp

/-! ### Helper lemmas: strings and the filesystem -/

theorem string_append_ne (s t : String) (h : t ≠ "") : s ++ t ≠ s := by
  intro hs
  apply h
  have hd := congrArg String.data hs
  rw [String.data_append] at hd
  have hd2 : s.data ++ t.data = s.data ++ ([] : List Char) := by
    simpa using hd
  exact String.ext (List.append_cancel_left hd2)

theorem string_append_inj (s a b : String) (h : s ++ a = s ++ b) : a = b := by
  have hd := congrArg String.data h
  rw [String.data_append, String.data_append] at hd
  exact String.ext (List.append_cancel_left hd)

theorem fsLookup_write_self (fs : FS) (p : String) (c : List Nat) :
    fsLookup (fsWrite fs p c) p = some c := by
  induction fs with
  | nil => simp [fsWrite, fsLookup]
  | cons e rest ih =>
    obtain ⟨q, d⟩ := e
    by_cases hq : q = p
    · simp [fsWrite, fsLookup, hq]
    · simp only [fsWrite, if_neg hq, fsLookup, ih]

theorem fsLookup_write_other (fs : FS) (p q : String) (c : List Nat)
    (h : q ≠ p) : fsLookup (fsWrite fs p c) q = fsLookup fs q := by
  induction fs with
  | nil => simp [fsWrite, fsLookup, Ne.symm h]
  | cons e rest ih =>
    obtain ⟨r, d⟩ := e
    by_cases hr : r = p
    · subst hr
      simp [fsWrite, fsLookup, Ne.symm h]
    · simp only [fsWrite, if_neg hr, fsLookup, ih]

theorem fsLookup_remove_other (fs : FS) (p q : String) (h : q ≠ p) :
    fsLookup (fsRemove fs p) q = fsLookup fs q := by
  induction fs with
  | nil => simp [fsRemove, fsLookup]
  | cons e rest ih =>
    obtain ⟨r, d⟩ := e
    by_cases hr : r = p
    · subst hr
      simp [fsRemove, fsLookup, Ne.symm h]
    · simp only [fsRemove, if_neg hr, fsLookup, ih]

theorem fsRemove_write_absent (fs : FS) (p : String) (c : List Nat)
    (h : fsLookup fs p = none) : fsRemove (fsWrite fs p c) p = fs := by
  induction fs with
  | nil => simp [fsWrite, fsRemove]
  | cons e rest ih =>
    obtain ⟨q, d⟩ := e
    by_cases hq : q = p
    · simp only [fsLookup, if_pos hq] at h
      cases h
    · simp only [fsLookup, if_neg hq] at h
      simp only [fsWrite, if_neg hq, fsRemove, if_neg hq, ih h]

theorem fsRemove_absent (fs : FS) (p : String)
    (h : fsLookup fs p = none) : fsRemove fs p = fs := by
  induction fs with
  | nil => rfl
  | cons e rest ih =>
    obtain ⟨q, d⟩ := e
    by_cases hq : q = p
    · simp only [fsLookup, if_pos hq] at h
      cases h
    · simp only [fsLookup, if_neg hq] at h
      simp only [fsRemove, if_neg hq, ih h]

/-- A structurally malformed payload in the sense of the replay switch:
non-empty, and either its tag byte is neither 1 nor 2, or one of its
declared lengths (key length for both tags, value length for tag 1) would
read past the end of the payload, including the cases where the 4-byte
length field itself does not fit. -/
abbrev MalformedPayload (p : List Nat) : Prop :=
  p ≠ [] ∧
    ((p.headD 0 ≠ 1 ∧ p.headD 0 ≠ 2) ∨
     (p.headD 0 = 1 ∧
       (p.length < 1 + 4 ∨
        p.length < 1 + 4 + beU32 ((p.drop 1).take 4) ∨
        p.length < 5 + beU32 ((p.drop 1).take 4) + 4 ∨
        p.length < 5 + beU32 ((p.drop 1).take 4) + 4 +
          beU32 ((p.drop (5 + beU32 ((p.drop 1).take 4))).take 4))) ∨
     (p.headD 0 = 2 ∧
       (p.length < 1 + 4 ∨ p.length < 1 + 4 + beU32 ((p.drop 1).take 4))))

theorem decodePayload_malformed (p : List Nat) (h : MalformedPayload p) :
    ∃ e, decodePayload p = Except.error e := by
  obtain ⟨hne, hcase⟩ := h
  cases p with
  | nil => exact absurd rfl hne
  | cons b rest =>
    simp only [List.headD_cons] at hcase
    simp only [decodePayload]
    by_cases hb1 : b = 1
    · rw [if_pos hb1]
      by_cases h5 : 1 + 4 > (b :: rest).length
      · rw [if_pos h5]
        exact ⟨_, rfl⟩
      · rw [if_neg h5]
        by_cases hk :
            1 + 4 + beU32 (((b :: rest).drop 1).take 4) > (b :: rest).length
        · rw [if_pos hk]
          exact ⟨_, rfl⟩
        · rw [if_neg hk]
          by_cases hvl :
              5 + beU32 (((b :: rest).drop 1).take 4) + 4 > (b :: rest).length
          · rw [if_pos hvl]
            exact ⟨_, rfl⟩
          · rw [if_neg hvl]
            by_cases hv :
                5 + beU32 (((b :: rest).drop 1).take 4) + 4 +
                    beU32 (((b :: rest).drop
                      (5 + beU32 (((b :: rest).drop 1).take 4))).take 4) >
                  (b :: rest).length
            · rw [if_pos hv]
              exact ⟨_, rfl⟩
            · exfalso
              rcases hcase with ⟨h1, _⟩ | ⟨_, hd⟩ | ⟨h2, _⟩
              · exact h1 hb1
              · omega
              · omega
    · rw [if_neg hb1]
      by_cases hb2 : b = 2
      · rw [if_pos hb2]
        by_cases h5 : 1 + 4 > (b :: rest).length
        · rw [if_pos h5]
          exact ⟨_, rfl⟩
        · rw [if_neg h5]
          by_cases hk :
              1 + 4 + beU32 (((b :: rest).drop 1).take 4) > (b :: rest).length
          · rw [if_pos hk]
            exact ⟨_, rfl⟩
          · exfalso
            rcases hcase with ⟨_, h2⟩ | ⟨h1, _⟩ | ⟨_, hd⟩
            · exact h2 hb2
            · exact hb1 h1
            · omega
      · rw [if_neg hb2]
        exact ⟨_, rfl⟩

/-! ### Helper lemmas: compaction path names -/

theorem tmp_ne_log (logPath : String) :
    logPath ++ ".compact.tmp" ≠ logPath :=
  string_append_ne _ _ (by decide)

theorem rot_ne_log (logPath : String) :
    logPath ++ ".compact.new" ≠ logPath :=
  string_append_ne _ _ (by decide)

theorem tmp_ne_rot (logPath : String) :
    logPath ++ ".compact.tmp" ≠ logPath ++ ".compact.new" := by
  intro h
  have h2 := string_append_inj _ _ _ h
  exact absurd h2 (by decide)

/-! ### Helper lemmas: compaction runs -/

theorem compactLog_eq_frames (data : Table) :
    compactLog data =
      ((data.map fun e => buildSetPayload e.1 e.2).map frameBytes).flatten := by
  induction data with
  | nil => rfl
  | cons e rest ih => simp [compactLog, ih]

theorem Compact_success (logPath : String) (data : Table) (fs : FS)
    (htmp : fsLookup fs (logPath ++ ".compact.tmp") = none) :
    KV.Compact none logPath data fs =
      (none,
       fsWrite (fsRemove (fsWrite fs (logPath ++ ".compact.new") (compactLog data))
         (logPath ++ ".compact.new")) logPath (compactLog data),
       data) := by
  simp only [KV.Compact, firstWriteFail, htmp]
  simp [fsRename, fsLookup_write_self, fsRemove_write_absent fs _ _ htmp]

theorem Compact_createTmp (logPath : String) (data : Table) (fs : FS) :
    KV.Compact (some CErr.createTmp) logPath data fs =
      (some CErr.createTmp, fs, data) := by
  simp [KV.Compact]

theorem Compact_writeEntry (logPath : String) (data : Table) (fs : FS) (i : Nat)
    (hi : i < data.length)
    (htmp : fsLookup fs (logPath ++ ".compact.tmp") = none) :
    KV.Compact (some (CErr.writeEntry i)) logPath data fs =
      (some (CErr.writeEntry i), fs, data) := by
  simp only [KV.Compact, firstWriteFail, htmp]
  simp [hi, fsRemove_write_absent fs _ _ htmp]

theorem Compact_closeTmp (logPath : String) (data : Table) (fs : FS)
    (htmp : fsLookup fs (logPath ++ ".compact.tmp") = none) :
    KV.Compact (some CErr.closeTmp) logPath data fs =
      (some CErr.closeTmp, fs, data) := by
  simp only [KV.Compact, firstWriteFail, htmp]
  simp [fsRemove_write_absent fs _ _ htmp]

theorem Compact_renameTmp (logPath : String) (data : Table) (fs : FS)
    (htmp : fsLookup fs (logPath ++ ".compact.tmp") = none) :
    KV.Compact (some CErr.renameTmp) logPath data fs =
      (some CErr.renameTmp, fs, data) := by
  simp only [KV.Compact, firstWriteFail, htmp]
  simp [fsRemove_write_absent fs _ _ htmp]

theorem Compact_openDir (logPath : String) (data : Table) (fs : FS)
    (htmp : fsLookup fs (logPath ++ ".compact.tmp") = none) :
    KV.Compact (some CErr.openDir) logPath data fs =
      (some CErr.openDir,
       fsWrite fs (logPath ++ ".compact.new") (compactLog data), data) := by
  simp only [KV.Compact, firstWriteFail, htmp]
  simp [fsRename, fsLookup_write_self, fsRemove_write_absent fs _ _ htmp]

theorem Compact_syncDir (logPath : String) (data : Table) (fs : FS)
    (htmp : fsLookup fs (logPath ++ ".compact.tmp") = none) :
    KV.Compact (some CErr.syncDir) logPath data fs =
      (some CErr.syncDir,
       fsWrite fs (logPath ++ ".compact.new") (compactLog data), data) := by
  simp only [KV.Compact, firstWriteFail, htmp]
  simp [fsRename, fsLookup_write_self, fsRemove_write_absent fs _ _ htmp]

theorem Compact_closeDir (logPath : String) (data : Table) (fs : FS)
    (htmp : fsLookup fs (logPath ++ ".compact.tmp") = none) :
    KV.Compact (some CErr.closeDir) logPath data fs =
      (some CErr.closeDir,
       fsWrite fs (logPath ++ ".compact.new") (compactLog data), data) := by
  simp only [KV.Compact, firstWriteFail, htmp]
  simp [fsRename, fsLookup_write_self, fsRemove_write_absent fs _ _ htmp]

theorem Compact_closeLog (logPath : String) (data : Table) (fs : FS)
    (htmp : fsLookup fs (logPath ++ ".compact.tmp") = none) :
    KV.Compact (some CErr.closeLog) logPath data fs =
      (some CErr.closeLog,
       fsWrite fs (logPath ++ ".compact.new") (compactLog data), data) := by
  simp only [KV.Compact, firstWriteFail, htmp]
  simp [fsRename, fsLookup_write_self, fsRemove_write_absent fs _ _ htmp]

/-! ### Claim theorems -/

/-- C3: Crash-tail tolerance of replay.  For every byte stream consisting
of well-formed frames (4-byte big-endian length, 4-byte big-endian CRC32
of the payload, then the payload) followed by nothing, a short frame
header, a short payload, or a frame whose checksum does not match its
payload, `readLog` returns exactly the payloads of the well-formed frames
in order.  The embedding of `readLog` is total: its only error path in the
source is a non-EOF I/O failure from `ReadFull`, which cannot occur on an
in-memory byte stream, so no error is returned. -/
theorem readLog_crash_tail (ps : List (List Nat)) (junk : List Nat)
    (hps : ∀ p ∈ ps, p.length < 2 ^ 32) (hj : BadTail junk) :
    readLog ((ps.map frameBytes).flatten ++ junk) = ps :=
  readLog_frames_badTail ps junk hps hj

set_option maxRecDepth 100000 in
/-- Witness for C3 at one Delete frame followed by a 3-byte short header. -/
theorem readLog_crash_tail_witness :
    (∀ p ∈ [[2, 0, 0, 0, 1, 107]], p.length < 2 ^ 32) ∧ BadTail [1, 2, 3] ∧
      readLog ((([[2, 0, 0, 0, 1, 107]] : List (List Nat)).map
        frameBytes).flatten ++ [1, 2, 3]) = [[2, 0, 0, 0, 1, 107]] :=
  ⟨by decide, by decide, readLog_crash_tail _ _ (by decide) (by decide)⟩

/-- C5: Codec round-trip.  For all key/value byte strings of length below
`2 ^ 32`, decoding the payload built by `buildSetPayload` yields a Set
record with exactly that key and value, and decoding the payload built by
`buildDelPayload` yields a Delete record with exactly that key. -/
theorem codec_roundtrip (key value : List Nat) (hk : key.length < 2 ^ 32)
    (hv : value.length < 2 ^ 32) :
    decodePayload (buildSetPayload key value) =
      Except.ok (LogRecord.SetRecord key value) ∧
    decodePayload (buildDelPayload key) =
      Except.ok (LogRecord.DeleteRecord key) :=
  ⟨decode_set key value hk hv, decode_del key hk⟩

set_option maxRecDepth 100000 in
/-- Witness for C5 at a key holding bytes 0 and 255 and an empty value. -/
theorem codec_roundtrip_witness :
    ([0, 255] : List Nat).length < 2 ^ 32 ∧ ([] : List Nat).length < 2 ^ 32 ∧
      (decodePayload (buildSetPayload [0, 255] []) =
        Except.ok (LogRecord.SetRecord [0, 255] []) ∧
       decodePayload (buildDelPayload [0, 255]) =
        Except.ok (LogRecord.DeleteRecord [0, 255])) :=
  ⟨by decide, by decide, codec_roundtrip [0, 255] [] (by decide) (by decide)⟩

/-- C7: At-most-one-side-effect for Set and Del.  If the durable append
fails, the error is returned and the store (in particular its table) is
completely unchanged; only on append success is the table inserted (Set)
or the key removed (Del), together with the log growing by the frame. -/
theorem set_del_side_effects (e : String) (kv : KV) (key value : List Nat) :
    (KV.Set (some e) kv key value).1 = some e ∧
    (KV.Set (some e) kv key value).2 = kv ∧
    (KV.Del (some e) kv key).1 = some e ∧
    (KV.Del (some e) kv key).2 = kv ∧
    KV.Set none kv key value =
      (none, ⟨tblInsert kv.data key value,
        kv.logBytes ++ frameBytes (buildSetPayload key value)⟩) ∧
    KV.Del none kv key =
      (none, ⟨tblErase kv.data key,
        kv.logBytes ++ frameBytes (buildDelPayload key)⟩) :=
  ⟨rfl, rfl, rfl, rfl, rfl, rfl⟩

/-- C8: Frame byte layout.  For every payload of length below `2 ^ 32`,
a successful `writeLogEntry` appends exactly the 4-byte big-endian payload
length, the 4-byte big-endian CRC32-IEEE checksum of the payload, then the
payload, for `8 + len(payload)` bytes in total; the length field decodes
back to the payload length and the checksum field to the checksum. -/
theorem writeLogEntry_frame_layout (file payload : List Nat)
    (h : payload.length < 2 ^ 32) :
    writeLogEntry none file payload =
      Except.ok (file ++
        (be32 payload.length ++ (be32 (crc32 payload) ++ payload))) ∧
    (frameBytes payload).length = 8 + payload.length ∧
    (frameBytes payload).take 4 = be32 payload.length ∧
    beU32 ((frameBytes payload).take 4) = payload.length ∧
    ((frameBytes payload).drop 4).take 4 = be32 (crc32 payload) ∧
    beU32 (((frameBytes payload).drop 4).take 4) = crc32 payload ∧
    (frameBytes payload).drop 8 = payload := by
  have ht4 : (frameBytes payload).take 4 = be32 payload.length :=
    take4_be32_append _ _
  have hd4 : (frameBytes payload).drop 4 =
      be32 (crc32 payload) ++ payload := drop4_be32_append _ _
  refine ⟨rfl, ?_, ht4, ?_, ?_, ?_, ?_⟩
  · simp only [frameBytes, be32, List.length_append, List.length_cons,
      List.length_nil]
    omega
  · rw [ht4, beU32_be32 _ h]
  · rw [hd4, take4_be32_append]
  · rw [hd4, take4_be32_append, beU32_be32 _ (crc32_lt payload)]
  · rw [show (frameBytes payload).drop 8 =
      ((frameBytes payload).drop 4).drop 4 from by rw [List.drop_drop]]
    rw [hd4, drop4_be32_append]

set_option maxRecDepth 100000 in
/-- Witness for C8 at file `[1]` and payload `[7]`. -/
theorem writeLogEntry_frame_layout_witness :
    ([7] : List Nat).length < 2 ^ 32 ∧
      writeLogEntry none [1] [7] = Except.ok ([1] ++ frameBytes [7]) :=
  ⟨by decide, (writeLogEntry_frame_layout [1] [7] (by decide)).1⟩

/-- C9: Idempotent delete.  Deleting a key absent from the table still
appends its tombstone frame to the log and returns success, and a
subsequent Get for that key is still absent (the table is unchanged). -/
theorem del_absent_idempotent (kv : KV) (key : List Nat)
    (h : tblGet kv.data key = none) :
    KV.Del none kv key =
      (none, ⟨kv.data, kv.logBytes ++ frameBytes (buildDelPayload key)⟩) ∧
    KV.Get (KV.Del none kv key).2 key = none := by
  have he : tblErase kv.data key = kv.data := tblErase_absent _ _ h
  constructor
  · simp only [KV.Del, writeLogEntry, he]
  · simp only [KV.Del, writeLogEntry, KV.Get, he]
    exact h

set_option maxRecDepth 100000 in
/-- Witness for C9 at the empty store and key `[107]`. -/
theorem del_absent_idempotent_witness :
    tblGet (KV.mk [] []).data [107] = none ∧
      (KV.Del none (KV.mk [] []) [107] =
        (none, ⟨[], [] ++ frameBytes (buildDelPayload [107])⟩) ∧
       KV.Get (KV.Del none (KV.mk [] []) [107]).2 [107] = none) :=
  ⟨rfl, del_absent_idempotent (KV.mk [] []) [107] rfl⟩

set_option maxRecDepth 100000 in
/-- C10: Empty-payload tolerance.  The frame of the empty payload is eight
zero bytes (length 0 and CRC32 of the empty byte string, which is 0); the
reader accepts it and yields the empty payload, replay skips it leaving
the table unchanged, and store initialization on such a log succeeds with
an empty table rather than treating it as malformed. -/
theorem empty_payload_skipped (t : Table) (rest : List Nat) :
    frameBytes [] = [0, 0, 0, 0, 0, 0, 0, 0] ∧
    readLog (frameBytes [] ++ rest) = [] :: readLog rest ∧
    applyPayload t [] = Except.ok t ∧
    NewKV (frameBytes []) = Except.ok ⟨[], frameBytes []⟩ :=
  ⟨rfl, readLog_cons [] rest (by decide), rfl, rfl⟩

/-- C4: Replay order semantics.  Replaying a log applies records in file
order, the last Set wins unless a later Delete removes the key: for the
appended sequence set(k,"a"), set(k,"b"), delete(k), set(k,"c") (values
are the ASCII bytes 97, 98, 99) a fresh open yields get(k) = "c", and for
set(k,"x") (byte 120) then delete(k) a fresh open yields get(k) absent.
The bound keeps every framed payload within the uint32 length field. -/
theorem replay_order (k : List Nat) (hk : 10 + k.length < 2 ^ 32) :
    (∃ kv, NewKV (frameBytes (buildSetPayload k [97]) ++
        (frameBytes (buildSetPayload k [98]) ++
          (frameBytes (buildDelPayload k) ++
            frameBytes (buildSetPayload k [99])))) = Except.ok kv ∧
      KV.Get kv k = some [99]) ∧
    (∃ kv, NewKV (frameBytes (buildSetPayload k [120]) ++
        frameBytes (buildDelPayload k)) = Except.ok kv ∧
      KV.Get kv k = none) := by
  have hk32 : k.length < 2 ^ 32 := by omega
  have hone : ∀ b : Nat, ([b] : List Nat).length < 2 ^ 32 := by
    intro b
    simp
  have hsetlen : ∀ b : Nat, (buildSetPayload k [b]).length < 2 ^ 32 := by
    intro b
    rw [buildSetPayload_length]
    simp only [List.length_cons, List.length_nil]
    omega
  have hdellen : (buildDelPayload k).length < 2 ^ 32 := by
    rw [buildDelPayload_length]
    omega
  have ha1 : applyPayload [] (buildSetPayload k [97]) =
      Except.ok [(k, [97])] := by
    rw [applyPayload_set _ _ _ hk32 (hone 97)]
    rfl
  have ha2 : applyPayload [(k, [97])] (buildSetPayload k [98]) =
      Except.ok [(k, [98])] := by
    rw [applyPayload_set _ _ _ hk32 (hone 98)]
    simp [tblInsert]
  have ha3 : applyPayload [(k, [98])] (buildDelPayload k) = Except.ok [] := by
    rw [applyPayload_del _ _ hk32]
    simp [tblErase]
  have ha4 : applyPayload [] (buildSetPayload k [99]) =
      Except.ok [(k, [99])] := by
    rw [applyPayload_set _ _ _ hk32 (hone 99)]
    rfl
  have ha5 : applyPayload [] (buildSetPayload k [120]) =
      Except.ok [(k, [120])] := by
    rw [applyPayload_set _ _ _ hk32 (hone 120)]
    rfl
  have ha6 : applyPayload [(k, [120])] (buildDelPayload k) = Except.ok [] := by
    rw [applyPayload_del _ _ hk32]
    simp [tblErase]
  constructor
  · refine ⟨⟨[(k, [99])], frameBytes (buildSetPayload k [97]) ++
      (frameBytes (buildSetPayload k [98]) ++
        (frameBytes (buildDelPayload k) ++
          frameBytes (buildSetPayload k [99])))⟩, ?_, ?_⟩
    · rw [NewKV]
      rw [readLog_cons _ _ (hsetlen 97), readLog_cons _ _ (hsetlen 98),
        readLog_cons _ _ hdellen]
      rw [← List.append_nil (frameBytes (buildSetPayload k [99])),
        readLog_cons _ _ (hsetlen 99), readLog_nil]
      simp only [replayFrom, ha1, ha2, ha3, ha4]
    · simp [KV.Get, tblGet]
  · refine ⟨⟨[], frameBytes (buildSetPayload k [120]) ++
      frameBytes (buildDelPayload k)⟩, ?_, ?_⟩
    · rw [NewKV]
      rw [readLog_cons _ _ (hsetlen 120)]
      rw [← List.append_nil (frameBytes (buildDelPayload k)),
        readLog_cons _ _ hdellen, readLog_nil]
      simp only [replayFrom, ha5, ha6]
    · simp [KV.Get, tblGet]

set_option maxRecDepth 400000 in
/-- Witness for C4 at the one-byte key `[107]`. -/
theorem replay_order_witness :
    10 + ([107] : List Nat).length < 2 ^ 32 ∧
      ((∃ kv, NewKV (frameBytes (buildSetPayload [107] [97]) ++
          (frameBytes (buildSetPayload [107] [98]) ++
            (frameBytes (buildDelPayload [107]) ++
              frameBytes (buildSetPayload [107] [99])))) = Except.ok kv ∧
        KV.Get kv [107] = some [99]) ∧
       (∃ kv, NewKV (frameBytes (buildSetPayload [107] [120]) ++
          frameBytes (buildDelPayload [107])) = Except.ok kv ∧
        KV.Get kv [107] = none)) :=
  ⟨by decide, replay_order [107] (by decide)⟩

/-- C6: Malformed-entry hard failure.  A non-empty payload that passed its
checksum (here: framed correctly, so `readLog` yields it) whose tag byte
is neither 1 nor 2, or whose declared key/value lengths would read past
the end of the payload, makes `decodePayload` fail and makes store
initialization (`NewKV`) abort with an error instead of skipping it. -/
theorem malformed_aborts (p : List Nat) (hm : MalformedPayload p)
    (hlen : p.length < 2 ^ 32) :
    (∃ e, decodePayload p = Except.error e) ∧
    (∃ e, NewKV (frameBytes p) = Except.error e) := by
  obtain ⟨e, he⟩ := decodePayload_malformed p hm
  have hne0 : ¬ (p.length = 0) := by
    intro h0
    exact hm.1 (List.length_eq_zero.mp h0)
  have happ : applyPayload [] p = Except.error e := by
    rw [applyPayload, if_neg hne0, he]
  have hrep : replayFrom [] [p] = Except.error e := by
    rw [replayFrom, happ]
  refine ⟨⟨e, he⟩, ⟨e, ?_⟩⟩
  rw [NewKV]
  rw [← List.append_nil (frameBytes p), readLog_cons _ _ hlen, readLog_nil,
    hrep]

set_option maxRecDepth 100000 in
/-- Witness for C6 at the unknown-tag payload `[3]`. -/
theorem malformed_aborts_witness :
    MalformedPayload [3] ∧ ([3] : List Nat).length < 2 ^ 32 ∧
      ((∃ e, decodePayload [3] = Except.error e) ∧
       (∃ e, NewKV (frameBytes [3]) = Except.error e)) :=
  ⟨by decide, by decide, malformed_aborts [3] (by decide) (by decide)⟩

/-- C1: Compaction preserves state.  For a table with distinct keys whose
entries fit the uint32 length field, a failure-free `Compact` succeeds and
installs at the live log path exactly the compacted image; that image
reads back as exactly one Set payload per table entry (so `|T|` Set
entries, none with the tombstone tag 2), and replaying it from offset 0
reconstructs exactly the table. -/
theorem compact_preserves_state (logPath : String) (data : Table) (fs : FS)
    (hnodup : (data.map Prod.fst).Nodup)
    (hsz : ∀ e ∈ data, 9 + e.1.length + e.2.length < 2 ^ 32)
    (htmp : fsLookup fs (logPath ++ ".compact.tmp") = none) :
    (KV.Compact none logPath data fs).1 = none ∧
    (KV.Compact none logPath data fs).2.2 = data ∧
    fsLookup (KV.Compact none logPath data fs).2.1 logPath =
      some (compactLog data) ∧
    readLog (compactLog data) = data.map (fun e => buildSetPayload e.1 e.2) ∧
    (readLog (compactLog data)).length = data.length ∧
    (∀ p ∈ readLog (compactLog data), p.headD 0 = 1 ∧ p.headD 0 ≠ 2) ∧
    replayFrom [] (readLog (compactLog data)) = Except.ok data := by
  have hplen : ∀ p ∈ data.map (fun e => buildSetPayload e.1 e.2),
      p.length < 2 ^ 32 := by
    intro p hp
    obtain ⟨e, he, rfl⟩ := List.mem_map.mp hp
    rw [buildSetPayload_length]
    have := hsz e he
    omega
  have hread : readLog (compactLog data) =
      data.map (fun e => buildSetPayload e.1 e.2) := by
    rw [compactLog_eq_frames]
    have := readLog_frames_badTail (data.map fun e => buildSetPayload e.1 e.2)
      [] hplen (Or.inl rfl)
    simpa using this
  have hC := Compact_success logPath data fs htmp
  refine ⟨by rw [hC], by rw [hC], ?_, hread, ?_, ?_, ?_⟩
  · rw [hC]
    exact fsLookup_write_self _ _ _
  · rw [hread, List.length_map]
  · intro p hp
    rw [hread] at hp
    obtain ⟨e, _, rfl⟩ := List.mem_map.mp hp
    exact ⟨rfl, by simp [buildSetPayload]⟩
  · rw [hread]
    have hrep := replayFrom_sets data [] (fun e _ => rfl) hnodup
      (fun e he => by have := hsz e he; omega)
    simpa using hrep

set_option maxRecDepth 400000 in
/-- Witness for C1 at a one-entry table over a live log with stale bytes. -/
theorem compact_preserves_state_witness :
    (([([107], [97])] : Table).map Prod.fst).Nodup ∧
    (∀ e ∈ ([([107], [97])] : Table), 9 + e.1.length + e.2.length < 2 ^ 32) ∧
    fsLookup [("db.log", [9, 9, 9])] ("db.log" ++ ".compact.tmp") = none ∧
      ((KV.Compact none "db.log" [([107], [97])] [("db.log", [9, 9, 9])]).1 =
          none ∧
       (KV.Compact none "db.log" [([107], [97])]
          [("db.log", [9, 9, 9])]).2.2 = [([107], [97])] ∧
       fsLookup (KV.Compact none "db.log" [([107], [97])]
          [("db.log", [9, 9, 9])]).2.1 "db.log" =
          some (compactLog [([107], [97])]) ∧
       readLog (compactLog [([107], [97])]) =
          ([([107], [97])] : Table).map (fun e => buildSetPayload e.1 e.2) ∧
       (readLog (compactLog [([107], [97])])).length =
          ([([107], [97])] : Table).length ∧
       (∀ p ∈ readLog (compactLog [([107], [97])]),
          p.headD 0 = 1 ∧ p.headD 0 ≠ 2) ∧
       replayFrom [] (readLog (compactLog [([107], [97])])) =
          Except.ok [([107], [97])]) :=
  ⟨by decide, by decide, by decide,
    compact_preserves_state "db.log" [([107], [97])] [("db.log", [9, 9, 9])]
      (by decide) (by decide) (by decide)⟩

set_option maxRecDepth 400000 in
/-- C2 counterexample: with a one-entry table and a live log at "db.log",
a `Compact` that fails at the directory-sync step (a pre-swap step, before
the final rename onto the live log path) returns the error but leaves the
staging file "db.log.compact.new" on disk, contradicting the claim that
every pre-swap failure removes the temporary/staging file it created. -/
theorem compact_syncDir_staging_left :
    (KV.Compact (some CErr.syncDir) "db.log" [([107], [97])]
        [("db.log", [9, 9, 9])]).1 = some CErr.syncDir ∧
    fsLookup (KV.Compact (some CErr.syncDir) "db.log" [([107], [97])]
        [("db.log", [9, 9, 9])]).2.1 ("db.log" ++ ".compact.new") ≠ none :=
  ⟨by decide, by decide⟩

/-- C2 amended: failures at temp-file creation, at writing an entry, at
closing the temp file, or at the temp-to-staging rename remove the temp
file (so the filesystem is exactly as before), leave the in-memory table
unchanged, and return the error; failures at the directory sync (open,
sync, or close) or at closing the live log handle return the error and
leave the live log contents, the temp path, and the table unchanged, but
leave the staging file (holding the compacted image) behind. -/
theorem compact_preswap_rollback (logPath : String) (data : Table) (fs : FS)
    (i : Nat) (hi : i < data.length)
    (htmp : fsLookup fs (logPath ++ ".compact.tmp") = none) :
    KV.Compact (some CErr.createTmp) logPath data fs =
      (some CErr.createTmp, fs, data) ∧
    KV.Compact (some (CErr.writeEntry i)) logPath data fs =
      (some (CErr.writeEntry i), fs, data) ∧
    KV.Compact (some CErr.closeTmp) logPath data fs =
      (some CErr.closeTmp, fs, data) ∧
    KV.Compact (some CErr.renameTmp) logPath data fs =
      (some CErr.renameTmp, fs, data) ∧
    (∀ e ∈ [CErr.openDir, CErr.syncDir, CErr.closeDir, CErr.closeLog],
      KV.Compact (some e) logPath data fs =
        (some e, fsWrite fs (logPath ++ ".compact.new") (compactLog data),
          data) ∧
      fsLookup (fsWrite fs (logPath ++ ".compact.new") (compactLog data))
        logPath = fsLookup fs logPath ∧
      fsLookup (fsWrite fs (logPath ++ ".compact.new") (compactLog data))
        (logPath ++ ".compact.tmp") = none ∧
      fsLookup (fsWrite fs (logPath ++ ".compact.new") (compactLog data))
        (logPath ++ ".compact.new") = some (compactLog data)) := by
  have hlog : fsLookup (fsWrite fs (logPath ++ ".compact.new")
      (compactLog data)) logPath = fsLookup fs logPath :=
    fsLookup_write_other _ _ _ _ (Ne.symm (rot_ne_log logPath))
  have htmp2 : fsLookup (fsWrite fs (logPath ++ ".compact.new")
      (compactLog data)) (logPath ++ ".compact.tmp") = none := by
    rw [fsLookup_write_other _ _ _ _ (tmp_ne_rot logPath)]
    exact htmp
  have hrot : fsLookup (fsWrite fs (logPath ++ ".compact.new")
      (compactLog data)) (logPath ++ ".compact.new") =
      some (compactLog data) := fsLookup_write_self _ _ _
  refine ⟨Compact_createTmp logPath data fs,
    Compact_writeEntry logPath data fs i hi htmp,
    Compact_closeTmp logPath data fs htmp,
    Compact_renameTmp logPath data fs htmp, ?_⟩
  intro e he
  simp only [List.mem_cons, List.not_mem_nil, or_false] at he
  rcases he with rfl | rfl | rfl | rfl
  · exact ⟨Compact_openDir logPath data fs htmp, hlog, htmp2, hrot⟩
  · exact ⟨Compact_syncDir logPath data fs htmp, hlog, htmp2, hrot⟩
  · exact ⟨Compact_closeDir logPath data fs htmp, hlog, htmp2, hrot⟩
  · exact ⟨Compact_closeLog logPath data fs htmp, hlog, htmp2, hrot⟩

set_option maxRecDepth 400000 in
/-- Witness for the amended C2 at a one-entry table. -/
theorem compact_preswap_rollback_witness :
    0 < ([([107], [97])] : Table).length ∧
    fsLookup [("db.log", [9, 9, 9])] ("db.log" ++ ".compact.tmp") = none ∧
      KV.Compact (some CErr.closeTmp) "db.log" [([107], [97])]
        [("db.log", [9, 9, 9])] =
        (some CErr.closeTmp, [("db.log", [9, 9, 9])], [([107], [97])]) :=
  ⟨by decide, by decide,
    (compact_preswap_rollback "db.log" [([107], [97])] [("db.log", [9, 9, 9])]
      0 (by decide) (by decide)).2.2.1⟩

end GoDB
